import Mathlib

/-!
Verification development for the agentk task-coordination core.

The embedded code comes from:
  * src/python/agentk/scripts/lib/core.sh  (task/result store, dependency
    resolution, cancellation, session management),
  * src/lib/spawn.sh                       (agent process supervisor),
  * src/unnamed/part_015                   (council stream orchestration,
    TypeScript).

The bash layer stores one JSON file per task id under tasks/ and one per
result under results/; we model that directory as an association list from
id to record (a directory cannot hold two files of the same name, and the
create path names the file after the task id).  Timestamps produced by
calls to date are modelled by an explicit clock argument (now : Nat).
Every mutating bash function reports success or failure through its exit
status; we model that as a returned Bool next to the new store.
-/

namespace AgentK

/-- Association-list model of a directory of JSON files keyed by id. -/
abbrev FMap (α : Type) := List (String × α)

/-- Reading the file for a key: the first (unique) entry with that key. -/
def fget {α : Type} : FMap α → String → Option α
  | [], _ => none
  | (k, v) :: m, key => if k = key then some v else fget m key

/-- Overwriting every entry that carries a given key. -/
def fovr {α : Type} (key : String) (v : α) : FMap α → FMap α
  | [] => []
  | (k, w) :: m =>
    if k = key then (key, v) :: fovr key v m else (k, w) :: fovr key v m

/-- Writing the file for a key: overwrite in place, or create the file. -/
def fput {α : Type} (m : FMap α) (key : String) (v : α) : FMap α :=
  if (fget m key).isSome then fovr key v m else m ++ [(key, v)]

/-- Removing the file for a key. -/
def frm {α : Type} (m : FMap α) (key : String) : FMap α :=
  m.filter (fun p => decide (¬ p.1 = key))

theorem fget_append {α : Type} (m n : FMap α) (key : String) :
    fget (m ++ n) key = ((fget m key).or (fget n key)) := by
  induction m with
  | nil => simp [fget]
  | cons p m ih =>
    obtain ⟨k, v⟩ := p
    by_cases h : k = key <;> simp [fget, h, ih, Option.or]

theorem fget_fovr_self {α : Type} (key : String) (v : α) (m : FMap α) :
    fget (fovr key v m) key = (fget m key).map (fun _ => v) := by
  induction m with
  | nil => rfl
  | cons p m ih =>
    obtain ⟨k, w⟩ := p
    by_cases h : k = key
    · subst h
      simp [fovr, fget]
    · simp [fovr, fget, h, ih]

theorem fget_fovr_ne {α : Type} (key j : String) (v : α) (m : FMap α)
    (hne : j ≠ key) : fget (fovr key v m) j = fget m j := by
  induction m with
  | nil => rfl
  | cons p m ih =>
    obtain ⟨k, w⟩ := p
    by_cases h : k = key
    · subst h
      have h2 : ¬ k = j := fun he => hne he.symm
      simpa [fovr, fget, h2] using ih
    · simp [fovr, fget, h, ih]

theorem fget_fput_self {α : Type} (m : FMap α) (key : String) (v : α) :
    fget (fput m key v) key = some v := by
  unfold fput
  by_cases hs : (fget m key).isSome
  · rw [if_pos hs, fget_fovr_self]
    obtain ⟨w, hw⟩ := Option.isSome_iff_exists.mp hs
    rw [hw]
    rfl
  · rw [if_neg hs, fget_append]
    rw [Option.not_isSome_iff_eq_none] at hs
    simp [hs, fget, Option.or]

theorem fget_fput_ne {α : Type} (m : FMap α) (key j : String) (v : α)
    (hne : j ≠ key) : fget (fput m key v) j = fget m j := by
  unfold fput
  by_cases hs : (fget m key).isSome
  · rw [if_pos hs, fget_fovr_ne _ _ _ _ hne]
  · rw [if_neg hs, fget_append]
    have h2 : ¬ key = j := fun he => hne he.symm
    cases hj : fget m j <;> simp [fget, h2, Option.or]

theorem fget_frm_self {α : Type} (m : FMap α) (key : String) :
    fget (frm m key) key = none := by
  induction m with
  | nil => rfl
  | cons p m ih =>
    obtain ⟨k, v⟩ := p
    by_cases h : k = key
    · simpa [frm, List.filter_cons, h] using ih
    · simpa [frm, List.filter_cons, fget, h] using ih

theorem fget_frm_ne {α : Type} (m : FMap α) (key j : String) (hne : j ≠ key) :
    fget (frm m key) j = fget m j := by
  induction m with
  | nil => rfl
  | cons p m ih =>
    obtain ⟨k, v⟩ := p
    by_cases h : k = key
    · subst h
      have h2 : ¬ k = j := fun he => hne he.symm
      simpa [frm, List.filter_cons, fget, h2] using ih
    · by_cases hj : k = j
      · simp [frm, List.filter_cons, fget, h, hj, hne]
      · simpa [frm, List.filter_cons, fget, h, hj] using ih

theorem fget_isSome_iff_mem_keys {α : Type} (m : FMap α) (key : String) :
    (fget m key).isSome ↔ key ∈ m.map Prod.fst := by
  induction m with
  | nil => simp [fget]
  | cons p m ih =>
    obtain ⟨k, v⟩ := p
    by_cases h : k = key
    · subst h
      simp [fget]
    · have h2 : ¬ key = k := fun he => h he.symm
      simp [fget, h, h2, ih]

theorem fget_eq_some_of_mem {α : Type} (m : FMap α) (k : String) (v : α)
    (hnd : (m.map Prod.fst).Nodup) (hmem : (k, v) ∈ m) : fget m k = some v := by
  induction m with
  | nil => simp at hmem
  | cons p m ih =>
    obtain ⟨k0, v0⟩ := p
    simp only [List.map_cons, List.nodup_cons] at hnd
    rcases List.mem_cons.mp hmem with h | h
    · injection h with h1 h2
      subst h1
      subst h2
      simp [fget]
    · have hk0 : ¬ k0 = k := by
        intro he
        subst he
        exact hnd.1 (List.mem_map.mpr ⟨(k0, v), h, rfl⟩)
      rw [fget, if_neg hk0]
      exact ih hnd.2 h

theorem mem_of_fget_eq_some {α : Type} (m : FMap α) (k : String) (v : α)
    (h : fget m k = some v) : (k, v) ∈ m := by
  induction m with
  | nil => simp [fget] at h
  | cons p m ih =>
    obtain ⟨k0, v0⟩ := p
    by_cases hk : k0 = k
    · subst hk
      rw [fget, if_pos rfl] at h
      injection h with h1
      subst h1
      exact List.mem_cons_self _ _
    · rw [fget, if_neg hk] at h
      exact List.mem_cons_of_mem _ (ih h)

theorem keys_fovr {α : Type} (key : String) (v : α) (m : FMap α) :
    (fovr key v m).map Prod.fst = m.map Prod.fst := by
  induction m with
  | nil => rfl
  | cons p m ih =>
    obtain ⟨k, w⟩ := p
    by_cases h : k = key
    · subst h
      simp [fovr, ih]
    · simp [fovr, h, ih]

theorem keys_fput_of_isSome {α : Type} (m : FMap α) (key : String) (v : α)
    (hs : (fget m key).isSome) :
    (fput m key v).map Prod.fst = m.map Prod.fst := by
  unfold fput
  rw [if_pos hs, keys_fovr]

/-! ## Task and result records (core.sh)

Status strings are those declared at core.sh lines 589 to 593.
A task file as written by create_task (core.sh lines 606 to 644) carries the
fields modelled below; fields the verified operations never read
(type, assigned_to, priority, prompt, created_at, context.files) are kept
out of the record.  The result back-reference and the error detail are
modelled as optional strings (null in JSON is none). -/

/-- Status values (core.sh lines 589 to 593). -/
inductive TStatus where
  | pending
  | in_progress
  | completed
  | failed
  | cancelled
deriving DecidableEq, Repr

/-- Terminal statuses per the spec state machine. -/
def TStatus.isTerminal : TStatus → Bool
  | .completed => true
  | .failed => true
  | .cancelled => true
  | _ => false

/-- One task file under tasks/, keyed by id. -/
structure Task where
  id : String
  status : TStatus
  started_at : Option Nat
  completed_at : Option Nat
  result : Option String
  error : Option String
  deps : List String
deriving DecidableEq, Repr

/-- One result file under results/ (create_result, core.sh lines 746 to 779). -/
structure ResultRec where
  task_id : String
  agent : String
  status : TStatus
  output : String
  completed_at : Nat
deriving DecidableEq, Repr

/-- Per-agent entry of the session registry
(update_session_agent, core.sh lines 1048 to 1062). -/
structure AgentEntry where
  status : String
  message : String
  updated_at : Nat
deriving DecidableEq, Repr

/-- The session.json file (create_session, core.sh lines 1018 to 1036). -/
structure Session where
  ended_at : Option Nat
  agents : FMap AgentEntry
deriving DecidableEq, Repr

/-- The workspace: tasks/ directory, results/ directory, session.json. -/
structure Store where
  tasks : FMap Task
  results : FMap ResultRec
  session : Option Session
deriving DecidableEq, Repr

/-- Well-formed workspace: file names are unique (a directory property) and
each task file is named after the id recorded inside it, which is what
create_task (core.sh line 618 and line 624) guarantees. -/
def WF (st : Store) : Prop :=
  (st.tasks.map Prod.fst).Nodup ∧ ∀ p ∈ st.tasks, p.1 = p.2.id

/-! ## Task mutation (core.sh) -/

/-- Embedding of update_task_status (core.sh lines 692 to 722).  A missing
task file is the only rejected input; otherwise the status is written
unconditionally, stamping started_at when the new status is in_progress and
completed_at when it is completed, failed or cancelled (pending falls into
the default branch of the case statement, which stamps nothing). -/
def update_task_status (st : Store) (now : Nat) (task_id : String)
    (new_status : TStatus) : Store × Bool :=
  match fget st.tasks task_id with
  | none => (st, false)
  | some t =>
    let t1 : Task :=
      match new_status with
      | .in_progress =>
        { t with status := new_status, started_at := some now }
      | .completed =>
        { t with status := new_status, completed_at := some now }
      | .failed =>
        { t with status := new_status, completed_at := some now }
      | .cancelled =>
        { t with status := new_status, completed_at := some now }
      | .pending => { t with status := new_status }
    ({ st with tasks := fput st.tasks task_id t1 }, true)

/-- The two task fields that update_task_field is invoked on in the
verified call paths. -/
inductive TField where
  | resultRef
  | errorDetail
deriving DecidableEq, Repr

/-- Helper for update_task_field: write one field of a task record. -/
def Task.setField (t : Task) : TField → String → Task
  | .resultRef, v => { t with result := some v }
  | .errorDetail, v => { t with error := some v }

/-- Embedding of update_task_field (core.sh lines 724 to 740): fails when
the task file is missing, otherwise rewrites the file with the field set. -/
def update_task_field (st : Store) (task_id : String) (f : TField)
    (value : String) : Store × Bool :=
  match fget st.tasks task_id with
  | none => (st, false)
  | some t =>
    ({ st with tasks := fput st.tasks task_id (t.setField f value) }, true)

/-- Path string used for the result back-reference
(get_result_file, core.sh lines 202 to 205). -/
def result_file_path (task_id : String) : String :=
  "results/" ++ task_id ++ ".json"

/-- Embedding of create_result (core.sh lines 746 to 779).  The result file
is written first (line 761), unconditionally; only then does
update_task_field run, and with set -euo pipefail (core.sh line 5) its
nonzero exit aborts create_result before update_task_status runs.  When the
task exists both follow-up updates succeed. -/
def create_result (st : Store) (now : Nat) (task_id agent : String)
    (status : TStatus) (output : String) : Store × Bool :=
  let rcd : ResultRec :=
    { task_id := task_id, agent := agent, status := status
      output := output, completed_at := now }
  let st1 : Store := { st with results := fput st.results task_id rcd }
  let f := update_task_field st1 task_id .resultRef (result_file_path task_id)
  if f.2 then
    ((update_task_status f.1 now task_id status).1, true)
  else
    (f.1, false)

/-! ## Task queries (core.sh) -/

/-- Embedding of get_task_status (core.sh lines 663 to 673): the status in
the task file, or the string "unknown" when the file is missing; the
missing case is modelled as none (no TStatus equals it). -/
def get_task_status (st : Store) (task_id : String) : Option TStatus :=
  (fget st.tasks task_id).map Task.status

/-- Embedding of list_tasks (core.sh lines 798 to 824): every task file in
the tasks directory, optionally keeping only one status. -/
def list_tasks (st : Store) (status_filter : Option TStatus) : List Task :=
  match status_filter with
  | none => st.tasks.map Prod.snd
  | some s => (st.tasks.map Prod.snd).filter (fun t => decide (t.status = s))

/-- Embedding of get_pending_tasks (core.sh lines 850 to 852). -/
def get_pending_tasks (st : Store) : List Task :=
  list_tasks st (some .pending)

/-- Embedding of check_dependencies_met (core.sh lines 866 to 894): false
when the task file is missing; otherwise every id in context.dependencies
must have get_task_status equal to completed, EXCEPT that empty dependency
ids are skipped: the loop body continues on an empty line (line 883), and
the early return on empty extracted text (line 878) — which covers both an
empty dependency list and a list of only empty strings — is the same
skip.  A missing nonempty dependency reports "unknown" and therefore
fails the comparison. -/
def check_dependencies_met (st : Store) (task_id : String) : Bool :=
  match fget st.tasks task_id with
  | none => false
  | some t =>
    t.deps.all (fun d =>
      decide (d = "") ||
        decide (get_task_status st d = some .completed))

/-- Embedding of get_ready_tasks (core.sh lines 896 to 907): the pending
tasks whose dependencies are met, the id being taken from the task record
itself (jq -r of the id field). -/
def get_ready_tasks (st : Store) : List Task :=
  (get_pending_tasks st).filter (fun t => check_dependencies_met st t.id)

/-! ## Cancellation and session management (core.sh) -/

/-- Embedding of cancel_task (core.sh lines 975 to 979). -/
def cancel_task (st : Store) (now : Nat) (task_id : String) : Store × Bool :=
  update_task_status st now task_id .cancelled

/-- Loop body of cancel_all_tasks (core.sh lines 988 to 998): read the task
file named k; when its status is pending or in_progress, cancel the task
under the id recorded inside the file. -/
def cancel_step (now : Nat) (st : Store) (k : String) : Store :=
  match fget st.tasks k with
  | none => st
  | some t =>
    if t.status = .pending ∨ t.status = .in_progress then
      (cancel_task st now t.id).1
    else st

/-- Embedding of cancel_all_tasks (core.sh lines 981 to 999): the glob over
the tasks directory expands once, so the loop runs over the initial list of
file names while each body re-reads the current file contents. -/
def cancel_all_tasks (st : Store) (now : Nat) : Store :=
  (st.tasks.map Prod.fst).foldl (cancel_step now) st

/-- Embedding of update_session_agent (core.sh lines 1048 to 1062): fails
when session.json is missing, otherwise overwrites the agent entry. -/
def update_session_agent (st : Store) (now : Nat) (agent status message : String) :
    Store × Bool :=
  match st.session with
  | none => (st, false)
  | some s =>
    ({ st with
        session := some
          { s with
              agents := fput s.agents agent
                { status := status, message := message, updated_at := now } } },
      true)

/-- Embedding of end_session (core.sh lines 1064 to 1075): stamp ended_at
into session.json when it exists, then cancel_all_tasks. -/
def end_session (st : Store) (now : Nat) : Store :=
  let st1 : Store :=
    match st.session with
    | none => st
    | some s => { st with session := some { s with ended_at := some now } }
  cancel_all_tasks st1 now

/-- Embedding of delete_task (core.sh lines 1001 to 1012): remove the task
file and the result file when they exist (removing an absent file is a
no-op, matching the guarded rm). -/
def delete_task (st : Store) (task_id : String) : Store :=
  { st with tasks := frm st.tasks task_id, results := frm st.results task_id }

/-! ## Agent process supervisor (spawn.sh) -/

/-- Exit data of the spawned external process: its exit code and the
combined stdout and stderr capture (the 2>&1 redirection at
spawn.sh line 199). -/
structure ProcExit where
  code : Nat
  output : String
deriving DecidableEq, Repr

/-- Embedding of the background subshell body of spawn_agent
(spawn.sh lines 191 to 212): on exit code zero create_result with status
completed, otherwise with status failed, in both cases followed by
update_session_agent.  The subshell runs under set -euo pipefail
(spawn.sh line 6), so a failing create_result aborts it before
update_session_agent runs. -/
def spawn_on_exit (st : Store) (now : Nat) (agent task_id : String)
    (p : ProcExit) : Store :=
  if p.code = 0 then
    let r := create_result st now task_id agent .completed p.output
    if r.2 then
      (update_session_agent r.1 now agent "done"
        ("Completed task " ++ task_id)).1
    else r.1
  else
    let r := create_result st now task_id agent .failed p.output
    if r.2 then
      (update_session_agent r.1 now agent "failed"
        ("Failed task " ++ task_id)).1
    else r.1

/-! ## Concrete stores for witnesses and counterexamples -/

/-- A task already in the terminal status completed. -/
def taskDone : Task :=
  { id := "t1", status := .completed, started_at := some 1,
    completed_at := some 2, result := none, error := none, deps := [] }

/-- A store holding just the completed task. -/
def storeDone : Store :=
  { tasks := [("t1", taskDone)], results := [], session := none }

/-! ## Claim C1 -/

/-- Claim C1 as stated is false: update_task_status performs no transition
validation, so moving a terminal task backward (completed to pending)
succeeds (exit status 0) and silently overwrites the stored status instead
of being rejected with an error. -/
theorem update_task_status_backward_counterexample :
    (update_task_status storeDone 7 "t1" .pending).2 = true ∧
    (fget (update_task_status storeDone 7 "t1" .pending).1.tasks "t1").map
      Task.status = some TStatus.pending := by
  exact ⟨rfl, rfl⟩

/-- Claim C1 (amended): update_task_status enforces no state machine at
all.  For any existing task, any requested status — including a backward
move or an update of a task already in a terminal status — succeeds and
overwrites the stored status; the only rejected input is a task id whose
file does not exist, in which case the store is unchanged. -/
theorem update_task_status_no_validation (st : Store) (now : Nat)
    (task_id : String) (new_status : TStatus) :
    (∀ t, fget st.tasks task_id = some t →
      (update_task_status st now task_id new_status).2 = true ∧
      (fget (update_task_status st now task_id new_status).1.tasks
        task_id).map Task.status = some new_status) ∧
    (fget st.tasks task_id = none →
      update_task_status st now task_id new_status = (st, false)) := by
  constructor
  · intro t ht
    simp only [update_task_status, ht]
    refine ⟨by trivial, ?_⟩
    rw [fget_fput_self]
    cases new_status <;> rfl
  · intro h
    simp only [update_task_status, h]

/-- Witness for the amended C1 theorem at a concrete input: the completed
task accepts a move to in_progress. -/
theorem update_task_status_no_validation_witness :
    (update_task_status storeDone 7 "t1" TStatus.in_progress).2 = true ∧
    (fget (update_task_status storeDone 7 "t1" TStatus.in_progress).1.tasks
      "t1").map Task.status = some TStatus.in_progress :=
  (update_task_status_no_validation storeDone 7 "t1" TStatus.in_progress).1
    taskDone rfl

/-! ## Claim C10 -/

/-- Claim C10: delete_task removes both the task record and the result
record keyed by the given id (removal of an absent result is a no-op) and
leaves the session and every record keyed by any other id unchanged. -/
theorem delete_task_frame (st : Store) (task_id : String) :
    fget (delete_task st task_id).tasks task_id = none ∧
    fget (delete_task st task_id).results task_id = none ∧
    (delete_task st task_id).session = st.session ∧
    ∀ j, j ≠ task_id →
      fget (delete_task st task_id).tasks j = fget st.tasks j ∧
      fget (delete_task st task_id).results j = fget st.results j := by
  refine ⟨fget_frm_self _ _, fget_frm_self _ _, rfl, ?_⟩
  intro j hj
  exact ⟨fget_frm_ne _ _ _ hj, fget_frm_ne _ _ _ hj⟩

/-- A pending task with no dependencies. -/
def taskTodo : Task :=
  { id := "t2", status := .pending, started_at := none,
    completed_at := none, result := none, error := none, deps := [] }

/-- A result record for the completed task. -/
def resDone : ResultRec :=
  { task_id := "t1", agent := "engineer", status := .completed,
    output := "ok", completed_at := 3 }

/-- A store with two tasks and one result. -/
def storeTwo : Store :=
  { tasks := [("t1", taskDone), ("t2", taskTodo)],
    results := [("t1", resDone)], session := none }

/-- Witness for the C10 theorem at a concrete store: deleting t1 erases its
task and result records and leaves the records of t2 alone. -/
theorem delete_task_frame_witness :
    fget (delete_task storeTwo "t1").tasks "t1" = none ∧
    fget (delete_task storeTwo "t1").results "t1" = none ∧
    (delete_task storeTwo "t1").session = storeTwo.session ∧
    (fget (delete_task storeTwo "t1").tasks "t2" = fget storeTwo.tasks "t2" ∧
      fget (delete_task storeTwo "t1").results "t2" =
        fget storeTwo.results "t2") := by
  have h := delete_task_frame storeTwo "t1"
  exact ⟨h.1, h.2.1, h.2.2.1, h.2.2.2 "t2" (by decide)⟩

/-! ## Claim C6 -/

/-- Claim C6 as stated is false: create_result on a nonexistent task id
does fail (the follow-up task update exits nonzero and set -e aborts the
function), but the result file has already been written by then, so a
result record for the nonexistent id does exist after the error. -/
theorem create_result_missing_task_counterexample :
    (create_result storeDone 4 "ghost" "tester" .completed "out").2 = false ∧
    fget (create_result storeDone 4 "ghost" "tester" .completed
        "out").1.results "ghost" =
      some { task_id := "ghost", agent := "tester", status := .completed,
             output := "out", completed_at := 4 } :=
  ⟨rfl, rfl⟩

/-- Claim C6 (amended): create_result on a task id with no task file fails
with an error and leaves the task store and the session unchanged, but it
has already created the result record for that id (the result file is
written before the task lookup); result records of other ids are
untouched. -/
theorem create_result_missing_task (st : Store) (now : Nat)
    (task_id agent : String) (status : TStatus) (output : String)
    (h : fget st.tasks task_id = none) :
    (create_result st now task_id agent status output).2 = false ∧
    (create_result st now task_id agent status output).1.tasks = st.tasks ∧
    (create_result st now task_id agent status output).1.session =
      st.session ∧
    fget (create_result st now task_id agent status output).1.results
        task_id =
      some { task_id := task_id, agent := agent, status := status,
             output := output, completed_at := now } ∧
    ∀ j, j ≠ task_id →
      fget (create_result st now task_id agent status output).1.results j =
        fget st.results j := by
  simp only [create_result, update_task_field, h]
  exact ⟨rfl, rfl, rfl, fget_fput_self _ _ _,
    fun j hj => fget_fput_ne _ _ _ _ hj⟩

/-- Witness for the amended C6 theorem at a concrete input. -/
theorem create_result_missing_task_witness :
    (create_result storeDone 5 "g2" "tester" TStatus.failed "boom").2 =
      false ∧
    fget (create_result storeDone 5 "g2" "tester" TStatus.failed
        "boom").1.results "t1" =
      fget storeDone.results "t1" := by
  have h := create_result_missing_task storeDone 5 "g2" "tester"
    TStatus.failed "boom" rfl
  exact ⟨h.1, h.2.2.2.2 "t1" (by decide)⟩

/-! ## Shared facts about create_result and update_session_agent -/

theorem update_session_agent_tasks (st : Store) (now : Nat)
    (agent status message : String) :
    (update_session_agent st now agent status message).1.tasks = st.tasks ∧
    (update_session_agent st now agent status message).1.results =
      st.results := by
  cases h : st.session <;> simp [update_session_agent, h]

theorem create_result_existing (st : Store) (now : Nat)
    (task_id agent : String) (status : TStatus) (output : String) (t : Task)
    (ht : fget st.tasks task_id = some t) :
    (create_result st now task_id agent status output).2 = true ∧
    fget (create_result st now task_id agent status output).1.results
        task_id =
      some { task_id := task_id, agent := agent, status := status,
             output := output, completed_at := now } ∧
    (fget (create_result st now task_id agent status output).1.tasks
      task_id).map Task.status = some status ∧
    (fget (create_result st now task_id agent status output).1.tasks
      task_id).map Task.error = some t.error ∧
    (create_result st now task_id agent status output).1.session =
      st.session := by
  have h2 : fget (fput st.tasks task_id
      (t.setField .resultRef (result_file_path task_id))) task_id =
      some (t.setField .resultRef (result_file_path task_id)) :=
    fget_fput_self _ _ _
  simp only [create_result, update_task_field, ht, update_task_status, h2]
  refine ⟨by trivial, fget_fput_self _ _ _, ?_, ?_, by trivial⟩
  · simp only [if_true]
    rw [fget_fput_self]
    cases status <;> rfl
  · simp only [if_true]
    rw [fget_fput_self]
    cases status <;> rfl

/-! ## Claim C3 -/

/-- A task that has already been cancelled. -/
def taskCancelled : Task :=
  { id := "t3", status := .cancelled, started_at := some 1,
    completed_at := some 2, result := none, error := none, deps := [] }

/-- A store holding just the cancelled task. -/
def storeCancelled : Store :=
  { tasks := [("t3", taskCancelled)], results := [], session := none }

/-- Claim C3 as stated is false: a process exit callback firing against a
task that is already cancelled is not a no-op — create_result overwrites
the cancelled status with completed. -/
theorem late_result_counterexample :
    (fget (spawn_on_exit storeCancelled 9 "engineer" "t3"
      { code := 0, output := "done" }).tasks "t3").map Task.status =
      some TStatus.completed := rfl

/-- Claim C3 (amended): the exit callback performs no terminal-status
guard.  For a task in the cancelled status, a late-firing callback
overwrites the stored status with completed (zero exit code) or failed
(nonzero exit code). -/
theorem late_result_overwrites_cancelled (st : Store) (now : Nat)
    (agent task_id : String) (t : Task) (p : ProcExit)
    (ht : fget st.tasks task_id = some t)
    (hc : t.status = .cancelled) :
    (fget (spawn_on_exit st now agent task_id p).tasks task_id).map
      Task.status =
      some (if p.code = 0 then TStatus.completed else TStatus.failed) := by
  by_cases hp : p.code = 0
  · have h0 := create_result_existing st now task_id agent .completed
      p.output t ht
    simp only [spawn_on_exit, hp, if_true, h0.1,
      (update_session_agent_tasks _ _ _ _ _).1]
    simpa [hp] using h0.2.2.1
  · have h0 := create_result_existing st now task_id agent .failed
      p.output t ht
    simp only [spawn_on_exit, hp, if_false,
      (update_session_agent_tasks _ _ _ _ _).1]
    rw [h0.1]
    simp only [if_true, (update_session_agent_tasks _ _ _ _ _).1]
    simpa [hp] using h0.2.2.1

/-- Witness for the amended C3 theorem: the cancelled task ends up failed
after a nonzero-exit callback. -/
theorem late_result_overwrites_cancelled_witness :
    (fget (spawn_on_exit storeCancelled 9 "engineer" "t3"
      { code := 1, output := "err" }).tasks "t3").map Task.status =
      some (if (1 : Nat) = 0 then TStatus.completed else TStatus.failed) :=
  late_result_overwrites_cancelled storeCancelled 9 "engineer" "t3"
    taskCancelled { code := 1, output := "err" } rfl rfl

/-! ## Claim C5 -/

/-- A task currently being worked on. -/
def taskActive : Task :=
  { id := "t4", status := .in_progress, started_at := some 1,
    completed_at := none, result := none, error := none, deps := [] }

/-- A store holding just the in-progress task. -/
def storeActive : Store :=
  { tasks := [("t4", taskActive)], results := [], session := none }

/-- Claim C5 as stated is false in its last conjunct: after a nonzero exit
the result is recorded as failed with the captured output and the task
status becomes failed, but the code never writes the task error field,
which stays null. -/
theorem spawn_exit_error_counterexample :
    (fget (spawn_on_exit storeActive 9 "tester" "t4"
      { code := 1, output := "boom" }).tasks "t4").map Task.status =
      some TStatus.failed ∧
    fget (spawn_on_exit storeActive 9 "tester" "t4"
        { code := 1, output := "boom" }).results "t4" =
      some { task_id := "t4", agent := "tester", status := .failed,
             output := "boom", completed_at := 9 } ∧
    (fget (spawn_on_exit storeActive 9 "tester" "t4"
      { code := 1, output := "boom" }).tasks "t4").map Task.error =
      some none :=
  ⟨rfl, rfl, rfl⟩

/-- Claim C5 (amended): on zero exit a completed result carrying the
captured output is recorded and the task becomes completed; on nonzero
exit a failed result carrying the captured (combined stdout and stderr)
output is recorded and the task becomes failed, but the task error field
is not written — it keeps its previous value (null by default). -/
theorem spawn_exit_records_result (st : Store) (now : Nat)
    (agent task_id : String) (t : Task) (p : ProcExit)
    (ht : fget st.tasks task_id = some t) :
    (p.code = 0 →
      fget (spawn_on_exit st now agent task_id p).results task_id =
        some { task_id := task_id, agent := agent, status := .completed,
               output := p.output, completed_at := now } ∧
      (fget (spawn_on_exit st now agent task_id p).tasks task_id).map
        Task.status = some TStatus.completed) ∧
    (p.code ≠ 0 →
      fget (spawn_on_exit st now agent task_id p).results task_id =
        some { task_id := task_id, agent := agent, status := .failed,
               output := p.output, completed_at := now } ∧
      (fget (spawn_on_exit st now agent task_id p).tasks task_id).map
        Task.status = some TStatus.failed ∧
      (fget (spawn_on_exit st now agent task_id p).tasks task_id).map
        Task.error = some t.error) := by
  constructor
  · intro hp
    have h0 := create_result_existing st now task_id agent .completed
      p.output t ht
    simp only [spawn_on_exit, hp, if_true, h0.1,
      (update_session_agent_tasks _ _ _ _ _).1,
      (update_session_agent_tasks _ _ _ _ _).2]
    exact ⟨h0.2.1, h0.2.2.1⟩
  · intro hp
    have h0 := create_result_existing st now task_id agent .failed
      p.output t ht
    simp only [spawn_on_exit, hp, if_false]
    rw [h0.1]
    simp only [if_true, (update_session_agent_tasks _ _ _ _ _).1,
      (update_session_agent_tasks _ _ _ _ _).2]
    exact ⟨h0.2.1, h0.2.2.1, h0.2.2.2.1⟩

/-- Witness for the amended C5 theorem: a zero-exit callback on the
in-progress task records a completed result and completes the task. -/
theorem spawn_exit_records_result_witness :
    fget (spawn_on_exit storeActive 9 "tester" "t4"
        { code := 0, output := "done" }).results "t4" =
      some { task_id := "t4", agent := "tester", status := .completed,
             output := "done", completed_at := 9 } ∧
    (fget (spawn_on_exit storeActive 9 "tester" "t4"
      { code := 0, output := "done" }).tasks "t4").map Task.status =
      some TStatus.completed :=
  (spawn_exit_records_result storeActive 9 "tester" "t4" taskActive
    { code := 0, output := "done" } rfl).1 rfl

/-! ## Claim C2 -/

/-- A pending task whose only dependency id is the empty string. -/
def taskEmptyDep : Task :=
  { id := "t6", status := .pending, started_at := none,
    completed_at := none, result := none, error := none, deps := [""] }

/-- A store holding just that task: the empty id resolves to no task. -/
def storeEmptyDep : Store :=
  { tasks := [("t6", taskEmptyDep)], results := [], session := none }

/-- Claim C2 as stated is false: the empty-string dependency id resolves
to no existing task, yet get_ready_tasks returns the pending task that
lists it, because the dependency loop skips empty ids instead of checking
them (core.sh lines 878 and 883). -/
theorem get_ready_tasks_empty_dep_counterexample :
    fget storeEmptyDep.tasks "" = none ∧
    taskEmptyDep ∈ get_ready_tasks storeEmptyDep := by
  exact ⟨rfl, by decide⟩

/-- Claim C2 (amended): for a well-formed store, get_ready_tasks returns
exactly the pending tasks every one of whose NONEMPTY dependency ids
resolves to an existing task in the completed status — empty-string
dependency ids are skipped as if absent.  In particular a pending task
with an empty dependency list is always returned, and a pending task with
a failed, cancelled, pending, in_progress or missing nonempty dependency
never is. -/
theorem get_ready_tasks_correct (st : Store) (hwf : WF st) (t : Task) :
    t ∈ get_ready_tasks st ↔
      ((t.id, t) ∈ st.tasks ∧ t.status = TStatus.pending ∧
        ∀ d ∈ t.deps, d = "" ∨ ∃ u, fget st.tasks d = some u ∧
          u.status = TStatus.completed) := by
  obtain ⟨hnd, hids⟩ := hwf
  simp only [get_ready_tasks, get_pending_tasks, list_tasks,
    List.mem_filter, List.mem_map, decide_eq_true_eq]
  constructor
  · rintro ⟨⟨⟨⟨k, v⟩, hp, rfl⟩, hpend⟩, hdeps⟩
    have hid : k = v.id := hids (k, v) hp
    subst hid
    have hfget : fget st.tasks v.id = some v :=
      fget_eq_some_of_mem _ _ _ hnd hp
    refine ⟨hp, hpend, ?_⟩
    simp only [check_dependencies_met, hfget, List.all_eq_true,
      Bool.or_eq_true, decide_eq_true_eq, get_task_status,
      Option.map_eq_some'] at hdeps
    intro d hd
    rcases hdeps d hd with h | ⟨u, hu, hus⟩
    · exact Or.inl h
    · exact Or.inr ⟨u, hu, hus⟩
  · rintro ⟨hmem, hpend, hdeps⟩
    have hfget : fget st.tasks t.id = some t :=
      fget_eq_some_of_mem _ _ _ hnd hmem
    refine ⟨⟨⟨(t.id, t), hmem, rfl⟩, hpend⟩, ?_⟩
    simp only [check_dependencies_met, hfget, List.all_eq_true,
      Bool.or_eq_true, decide_eq_true_eq, get_task_status,
      Option.map_eq_some']
    intro d hd
    rcases hdeps d hd with h | ⟨u, hu, hus⟩
    · exact Or.inl h
    · exact Or.inr ⟨u, hu, hus⟩

/-- A pending task depending on the completed task t1. -/
def taskBlocked : Task :=
  { id := "t5", status := .pending, started_at := none,
    completed_at := none, result := none, error := none, deps := ["t1"] }

/-- A store with a completed dependency and a pending dependent task. -/
def storeDeps : Store :=
  { tasks := [("t1", taskDone), ("t5", taskBlocked)],
    results := [], session := none }

/-- Witness for the amended C2 theorem at a concrete well-formed store. -/
theorem get_ready_tasks_correct_witness :
    taskBlocked ∈ get_ready_tasks storeDeps ↔
      ((taskBlocked.id, taskBlocked) ∈ storeDeps.tasks ∧
        taskBlocked.status = TStatus.pending ∧
        ∀ d ∈ taskBlocked.deps, d = "" ∨
          ∃ u, fget storeDeps.tasks d = some u ∧
            u.status = TStatus.completed) :=
  get_ready_tasks_correct storeDeps (by constructor <;> decide) taskBlocked

/-! ## Claim C4 -/

/-- Auxiliary membership facts about overwriting. -/
theorem mem_fovr {α : Type} (key : String) (v : α) (m : FMap α)
    (p : String × α) (h : p ∈ fovr key v m) : p = (key, v) ∨ p ∈ m := by
  induction m with
  | nil => simp [fovr] at h
  | cons q m ih =>
    obtain ⟨k, w⟩ := q
    by_cases hk : k = key
    · rw [fovr, if_pos hk] at h
      rcases List.mem_cons.mp h with h | h
      · exact Or.inl h
      · rcases ih h with h | h
        · exact Or.inl h
        · exact Or.inr (List.mem_cons_of_mem _ h)
    · rw [fovr, if_neg hk] at h
      rcases List.mem_cons.mp h with h | h
      · exact Or.inr (h ▸ List.mem_cons_self _ _)
      · rcases ih h with h | h
        · exact Or.inl h
        · exact Or.inr (List.mem_cons_of_mem _ h)

theorem mem_fput {α : Type} (m : FMap α) (key : String) (v : α)
    (p : String × α) (h : p ∈ fput m key v) : p = (key, v) ∨ p ∈ m := by
  unfold fput at h
  by_cases hs : (fget m key).isSome
  · rw [if_pos hs] at h
    exact mem_fovr _ _ _ _ h
  · rw [if_neg hs] at h
    rcases List.mem_append.mp h with h | h
    · exact Or.inr h
    · exact Or.inl (List.mem_singleton.mp h)

/-- The effect cancel_all_tasks has on a single task record: pending and
in_progress tasks become cancelled with completed_at stamped, others are
untouched.  This mirrors one pass of the cancel_all_tasks loop body. -/
def cancelNonterm (now : Nat) (t : Task) : Task :=
  if t.status = TStatus.pending ∨ t.status = TStatus.in_progress then
    { t with status := TStatus.cancelled, completed_at := some now }
  else t

theorem cancelNonterm_idem (now : Nat) (t : Task) :
    cancelNonterm now (cancelNonterm now t) = cancelNonterm now t := by
  unfold cancelNonterm
  by_cases hs : t.status = TStatus.pending ∨ t.status = TStatus.in_progress
  · rw [if_pos hs]
    simp
  · rw [if_neg hs, if_neg hs]

theorem cancel_step_frame (now : Nat) (st : Store) (k : String) :
    (cancel_step now st k).results = st.results ∧
    (cancel_step now st k).session = st.session := by
  unfold cancel_step cancel_task update_task_status
  cases hk : fget st.tasks k with
  | none => exact ⟨rfl, rfl⟩
  | some t =>
    by_cases hs : t.status = TStatus.pending ∨ t.status = TStatus.in_progress
    · simp only [if_pos hs]
      cases h2 : fget st.tasks t.id <;> simp
    · simp [hs]

theorem cancel_step_fget (now : Nat) (st : Store) (k : String) (hwf : WF st) :
    ∀ j, fget (cancel_step now st k).tasks j =
      if j = k then (fget st.tasks k).map (cancelNonterm now)
      else fget st.tasks j := by
  intro j
  cases hk : fget st.tasks k with
  | none =>
    by_cases hj : j = k
    · subst hj
      simp [cancel_step, hk]
    · simp [cancel_step, hk, hj]
  | some t =>
    have hid : k = t.id := hwf.2 (k, t) (mem_of_fget_eq_some _ _ _ hk)
    by_cases hs : t.status = TStatus.pending ∨ t.status = TStatus.in_progress
    · have hk2 : fget st.tasks t.id = some t := hid ▸ hk
      simp only [cancel_step, hk, if_pos hs, cancel_task,
        update_task_status, hk2]
      by_cases hj : j = k
      · subst hj
        rw [hid, fget_fput_self, hk2]
        simp [cancelNonterm, hs]
      · rw [fget_fput_ne _ _ _ _ (hid ▸ hj : j ≠ t.id), if_neg hj]
    · simp only [cancel_step, hk, if_neg hs]
      by_cases hj : j = k
      · subst hj
        simp [hk, cancelNonterm, hs]
      · simp [hj]

theorem cancel_step_keys (now : Nat) (st : Store) (k : String) :
    (cancel_step now st k).tasks.map Prod.fst = st.tasks.map Prod.fst := by
  unfold cancel_step cancel_task update_task_status
  cases hk : fget st.tasks k with
  | none => rfl
  | some t =>
    by_cases hs : t.status = TStatus.pending ∨ t.status = TStatus.in_progress
    · simp only [if_pos hs]
      cases h2 : fget st.tasks t.id with
      | none => rfl
      | some u =>
        simp only []
        exact keys_fput_of_isSome _ _ _ (h2 ▸ rfl)
    · simp [hs]

theorem cancel_step_wf (now : Nat) (st : Store) (k : String) (hwf : WF st) :
    WF (cancel_step now st k) := by
  constructor
  · rw [cancel_step_keys]
    exact hwf.1
  · intro p hp
    unfold cancel_step cancel_task update_task_status at hp
    revert hp
    cases hk : fget st.tasks k with
    | none => exact fun hp => hwf.2 p hp
    | some t =>
      by_cases hs : t.status = TStatus.pending ∨ t.status = TStatus.in_progress
      · have hk2 : fget st.tasks t.id = some t :=
          (hwf.2 (k, t) (mem_of_fget_eq_some _ _ _ hk)) ▸ hk
        simp only [if_pos hs, hk2]
        intro hp
        rcases mem_fput _ _ _ _ hp with h | h
        · subst h
          rfl
        · exact hwf.2 p h
      · simp only [if_neg hs]
        exact fun hp => hwf.2 p hp

theorem cancel_fold_wf (now : Nat) :
    ∀ (ids : List String) (st : Store), WF st →
      WF (ids.foldl (cancel_step now) st)
  | [], st, hwf => hwf
  | k :: ids, st, hwf =>
    cancel_fold_wf now ids (cancel_step now st k) (cancel_step_wf now st k hwf)

theorem cancel_fold_frame (now : Nat) :
    ∀ (ids : List String) (st : Store),
      (ids.foldl (cancel_step now) st).results = st.results ∧
      (ids.foldl (cancel_step now) st).session = st.session
  | [], st => ⟨rfl, rfl⟩
  | k :: ids, st => by
    rw [List.foldl_cons]
    have h1 := cancel_fold_frame now ids (cancel_step now st k)
    have h2 := cancel_step_frame now st k
    exact ⟨h1.1.trans h2.1, h1.2.trans h2.2⟩

theorem cancel_fold_keys (now : Nat) :
    ∀ (ids : List String) (st : Store),
      (ids.foldl (cancel_step now) st).tasks.map Prod.fst =
        st.tasks.map Prod.fst
  | [], st => rfl
  | k :: ids, st => by
    rw [List.foldl_cons]
    exact (cancel_fold_keys now ids (cancel_step now st k)).trans
      (cancel_step_keys now st k)

theorem cancel_fold_fget (now : Nat) :
    ∀ (ids : List String) (st : Store), WF st → ∀ j,
      fget ((ids.foldl (cancel_step now) st).tasks) j =
        if j ∈ ids then (fget st.tasks j).map (cancelNonterm now)
        else fget st.tasks j := by
  intro ids
  induction ids with
  | nil => simp
  | cons k ids ih =>
    intro st hwf j
    rw [List.foldl_cons, ih _ (cancel_step_wf now st k hwf) j,
      cancel_step_fget now st k hwf j]
    by_cases hj : j = k
    · subst hj
      rw [if_pos rfl]
      by_cases hin : j ∈ ids
      · rw [if_pos hin, if_pos (List.mem_cons.mpr (Or.inl rfl))]
        cases fget st.tasks j <;> simp [cancelNonterm_idem]
      · rw [if_neg hin, if_pos (List.mem_cons.mpr (Or.inl rfl))]
    · rw [if_neg hj]
      by_cases hin : j ∈ ids
      · rw [if_pos hin, if_pos (List.mem_cons.mpr (Or.inr hin))]
      · rw [if_neg hin,
          if_neg (fun h => (List.mem_cons.mp h).elim (fun h2 => hj h2) hin)]

/-- Specification of cancel_all_tasks on a well-formed store. -/
theorem cancel_all_tasks_spec (st : Store) (now : Nat) (hwf : WF st) :
    (∀ p ∈ (cancel_all_tasks st now).tasks,
      p.2.status ≠ TStatus.pending ∧ p.2.status ≠ TStatus.in_progress) ∧
    (∀ k t, fget st.tasks k = some t →
      (t.status = TStatus.pending ∨ t.status = TStatus.in_progress) →
      fget (cancel_all_tasks st now).tasks k =
        some { t with status := TStatus.cancelled,
                      completed_at := some now }) ∧
    (cancel_all_tasks st now).results = st.results ∧
    (cancel_all_tasks st now).session = st.session := by
  unfold cancel_all_tasks
  refine ⟨?_, ?_, (cancel_fold_frame now _ st).1, (cancel_fold_frame now _ st).2⟩
  · intro p hp
    have hwf2 := cancel_fold_wf now (st.tasks.map Prod.fst) st hwf
    have hfget : fget ((st.tasks.map Prod.fst).foldl
        (cancel_step now) st).tasks p.1 = some p.2 := by
      obtain ⟨k, v⟩ := p
      exact fget_eq_some_of_mem _ _ _ hwf2.1 hp
    have hkeys : p.1 ∈ st.tasks.map Prod.fst := by
      have h1 : p.1 ∈ ((st.tasks.map Prod.fst).foldl
          (cancel_step now) st).tasks.map Prod.fst :=
        List.mem_map.mpr ⟨p, hp, rfl⟩
      rwa [cancel_fold_keys] at h1
    rw [cancel_fold_fget now _ st hwf p.1, if_pos hkeys] at hfget
    obtain ⟨t0, ht0, ht0e⟩ := Option.map_eq_some'.mp hfget
    rw [← ht0e]
    unfold cancelNonterm
    by_cases hs : t0.status = TStatus.pending ∨
        t0.status = TStatus.in_progress
    · rw [if_pos hs]
      exact ⟨fun h => TStatus.noConfusion h, fun h => TStatus.noConfusion h⟩
    · rw [if_neg hs]
      push_neg at hs
      exact hs
  · intro k t ht hs
    have hkeys : k ∈ st.tasks.map Prod.fst :=
      (fget_isSome_iff_mem_keys st.tasks k).mp (ht ▸ rfl)
    rw [cancel_fold_fget now _ st hwf k, if_pos hkeys, ht]
    simp [cancelNonterm, hs]

/-- Claim C4: after end_session, no task is pending or in_progress; every
task that was non-terminal has been moved to cancelled with completed_at
stamped; and when a session file exists its ended_at field is stamped. -/
theorem end_session_cancels_all (st : Store) (now : Nat) (hwf : WF st) :
    (∀ p ∈ (end_session st now).tasks,
      p.2.status ≠ TStatus.pending ∧ p.2.status ≠ TStatus.in_progress) ∧
    (∀ k t, fget st.tasks k = some t →
      (t.status = TStatus.pending ∨ t.status = TStatus.in_progress) →
      fget (end_session st now).tasks k =
        some { t with status := TStatus.cancelled,
                      completed_at := some now }) ∧
    (∀ s, st.session = some s →
      (end_session st now).session = some { s with ended_at := some now }) := by
  unfold end_session
  cases hsess : st.session with
  | none =>
    have h := cancel_all_tasks_spec st now hwf
    exact ⟨h.1, h.2.1, fun s hs => Option.noConfusion hs⟩
  | some s0 =>
    have hwf1 : WF { st with session := some { s0 with ended_at := some now } } :=
      hwf
    have h := cancel_all_tasks_spec
      { st with session := some { s0 with ended_at := some now } } now hwf1
    refine ⟨h.1, h.2.1, ?_⟩
    intro s hs
    injection hs with hs
    subst hs
    exact h.2.2.2

/-- A fresh session with no agents. -/
def sess0 : Session := { ended_at := none, agents := [] }

/-- A store with an open session, one completed and one pending task. -/
def storeSess : Store :=
  { tasks := [("t1", taskDone), ("t2", taskTodo)],
    results := [], session := some sess0 }

/-- Witness for the C4 theorem at a concrete store: the pending task t2 is
cancelled with completed_at stamped and the session is stamped. -/
theorem end_session_cancels_all_witness :
    fget (end_session storeSess 11).tasks "t2" =
      some { taskTodo with status := TStatus.cancelled,
                           completed_at := some 11 } ∧
    (end_session storeSess 11).session =
      some { sess0 with ended_at := some 11 } := by
  have h := end_session_cancels_all storeSess 11 (by constructor <;> decide)
  exact ⟨h.2.1 "t2" taskTodo rfl (Or.inl rfl), h.2.2 sess0 rfl⟩

/-! ## Claim C7 -/

/-- Signals sent to an agent process: the signal-0 liveness probe used by
is_agent_running and the wait loop, and the TERM and KILL signals used by
kill_agent. -/
inductive Sig where
  | probe
  | term
  | killSig
deriving DecidableEq, Repr

/-- The three return paths of wait_agent: missing pid file (warn, exit 1),
process exited (exit 0), and timeout expiry (warn, exit 1). -/
inductive WaitOutcome where
  | notRunning
  | finished
  | timedOut
deriving DecidableEq, Repr

/-- Exit status of each wait_agent return path. -/
def WaitOutcome.exitCode : WaitOutcome → Nat
  | .notRunning => 1
  | .finished => 0
  | .timedOut => 1

/-- The poll loop of wait_agent (spawn.sh lines 357 to 360): while the
signal-0 probe reports the process alive and elapsed is below the timeout,
sleep one second and increment elapsed.  The function alive gives the
probe's answer at each elapsed second; remaining counts the loop
iterations left before elapsed reaches the timeout.  Returns the final
elapsed value and the trace of signals sent. -/
def waitLoop (alive : Nat → Bool) : Nat → Nat → Nat × List Sig
  | 0, e => (e, [Sig.probe])
  | r + 1, e =>
    if alive e then
      ((waitLoop alive r (e + 1)).1, Sig.probe :: (waitLoop alive r (e + 1)).2)
    else (e, [Sig.probe])

/-- Embedding of wait_agent (spawn.sh lines 343 to 373): without a pid
file it warns and returns 1; otherwise it runs the poll loop, then probes
once more: a process still alive means timeout expiry (warn and exit 1 —
no termination signal is ever sent on this path), a dead process means
normal completion (exit 0 and the pid file is cleared). -/
def wait_agent (pid : Option Nat) (alive : Nat → Bool) (timeout : Nat) :
    WaitOutcome × List Sig :=
  match pid with
  | none => (.notRunning, [])
  | some _ =>
    let p := waitLoop alive timeout 0
    if alive p.1 then (.timedOut, p.2 ++ [Sig.probe])
    else (.finished, p.2 ++ [Sig.probe])

theorem waitLoop_fst_alive (alive : Nat → Bool)
    (hmono : ∀ i j, i ≤ j → alive j = true → alive i = true) :
    ∀ r e, alive (e + r) = true → (waitLoop alive r e).1 = e + r := by
  intro r
  induction r with
  | zero => intro e h; simp [waitLoop]
  | succ r ih =>
    intro e h
    have ha : alive e = true := hmono e (e + (r + 1)) (by omega) h
    have h2 : alive (e + 1 + r) = true := by
      rw [show e + 1 + r = e + (r + 1) from by omega]
      exact h
    simp only [waitLoop, if_pos ha, ih (e + 1) h2]
    omega

theorem waitLoop_fst_dead (alive : Nat → Bool) :
    ∀ r e, alive (e + r) = false → alive ((waitLoop alive r e).1) = false := by
  intro r
  induction r with
  | zero => intro e h; simpa [waitLoop] using h
  | succ r ih =>
    intro e h
    by_cases ha : alive e
    · have h2 : alive (e + 1 + r) = false := by
        rw [show e + 1 + r = e + (r + 1) from by omega]
        exact h
      simp only [waitLoop, if_pos ha]
      exact ih (e + 1) h2
    · simp only [waitLoop, if_neg ha]
      exact Bool.eq_false_iff.mpr ha

theorem waitLoop_trace_probe (alive : Nat → Bool) :
    ∀ r e s, s ∈ (waitLoop alive r e).2 → s = Sig.probe := by
  intro r
  induction r with
  | zero => intro e s hs; simpa [waitLoop] using hs
  | succ r ih =>
    intro e s hs
    by_cases ha : alive e
    · simp only [waitLoop, if_pos ha] at hs
      rcases List.mem_cons.mp hs with h | h
      · exact h
      · exact ih (e + 1) s h
    · simpa [waitLoop, if_neg ha] using hs

/-- Claim C7: for an agent with a live process, wait_agent polls the
process once a second; when the process outlives the timeout the call
takes the timeout return path (exit 1 after the distinct timeout warning,
a path different from the finished one), when the process dies within the
deadline it takes the finished path (exit 0), and in either case the only
signal ever sent is the signal-0 liveness probe — expiry never kills the
process.  Process liveness is antitone in time (a dead process stays
dead). -/
theorem wait_agent_timeout_behavior (pid : Nat) (alive : Nat → Bool)
    (timeout : Nat)
    (hmono : ∀ i j, i ≤ j → alive j = true → alive i = true) :
    (alive timeout = true →
      (wait_agent (some pid) alive timeout).1 = WaitOutcome.timedOut ∧
      ((wait_agent (some pid) alive timeout).1).exitCode = 1) ∧
    (alive timeout = false →
      (wait_agent (some pid) alive timeout).1 = WaitOutcome.finished ∧
      ((wait_agent (some pid) alive timeout).1).exitCode = 0) ∧
    (∀ s ∈ (wait_agent (some pid) alive timeout).2, s = Sig.probe) := by
  refine ⟨?_, ?_, ?_⟩
  · intro h
    have h1 : (waitLoop alive timeout 0).1 = timeout := by
      have h2 := waitLoop_fst_alive alive hmono timeout 0 (by simpa using h)
      simpa using h2
    have h3 : alive (waitLoop alive timeout 0).1 = true := by
      rw [h1]
      exact h
    simp [wait_agent, h3, WaitOutcome.exitCode]
  · intro h
    have h1 : alive (waitLoop alive timeout 0).1 = false :=
      waitLoop_fst_dead alive timeout 0 (by simpa using h)
    simp [wait_agent, h1, WaitOutcome.exitCode]
  · intro s hs
    simp only [wait_agent] at hs
    by_cases half : alive (waitLoop alive timeout 0).1
    · rw [if_pos half] at hs
      rcases List.mem_append.mp hs with h | h
      · exact waitLoop_trace_probe alive timeout 0 s h
      · simpa using h
    · rw [if_neg half] at hs
      rcases List.mem_append.mp hs with h | h
      · exact waitLoop_trace_probe alive timeout 0 s h
      · simpa using h

/-- A process that never exits. -/
def aliveAlways (e : Nat) : Bool := true

/-- Witness for the C7 theorem: against a process that outlives the
3-second timeout, wait_agent takes the timeout path with exit status 1. -/
theorem wait_agent_timeout_behavior_witness :
    (wait_agent (some 42) aliveAlways 3).1 = WaitOutcome.timedOut ∧
    ((wait_agent (some 42) aliveAlways 3).1).exitCode = 1 :=
  (wait_agent_timeout_behavior 42 aliveAlways 3
    (fun i j hij h2 => h2)).1 rfl

/-! ## Council stream orchestration (src/unnamed/part_015)

Text handled by the TypeScript layer is modelled as List Char (a
JavaScript string is a character sequence).  JSON.parse is an external
library call, so the development quantifies over an arbitrary parse
function into the view of a JSON value that runCouncil inspects. -/

/-- View of a parsed JSON value as far as runCouncil reads one: its stage
field (stream updates), its final_response field and its wrapped council
object (final results).  A missing field is none. -/
inductive JVal where
  | mk (stage : Option (List Char)) (final_response : Option (List Char))
      (council : Option JVal)

/-- Stage field accessor. -/
def JVal.stage : JVal → Option (List Char)
  | .mk s _ _ => s

/-- Final-response field accessor. -/
def JVal.final_response : JVal → Option (List Char)
  | .mk _ f _ => f

/-- Council field accessor. -/
def JVal.council : JVal → Option JVal
  | .mk _ _ c => c

/-- JavaScript truthiness of an optional string field: the field must be
present and nonempty. -/
def truthyS : Option (List Char) → Bool
  | none => false
  | some s => !s.isEmpty

/-- Prepending a character to the first segment of a split: to the first
complete line when one exists, otherwise to the trailing part. -/
def consHead (c : Char) : List (List Char) × List Char → List (List Char) × List Char
  | ([], r) => ([], c :: r)
  | (l :: ls, r) => ((c :: l) :: ls, r)

/-- JavaScript split on the newline character: the complete lines and the
trailing part after the last newline (JS split returns that trailing part
as the last array element; the stdout handler pops it back into its
buffer). -/
def splitNl : List Char → List (List Char) × List Char
  | [] => ([], [])
  | c :: cs =>
    if c = '\n' then ([] :: (splitNl cs).1, (splitNl cs).2)
    else consHead c (splitNl cs)

/-- One line of the stdout handler loop (part_015 lines 123 to 133): skip
lines that are empty after trimming, ignore lines that fail to parse, and
emit the parsed update when its stage field is truthy. -/
def goodStage (parse : List Char → Option JVal) (l : List Char) :
    Option JVal :=
  if l.any (fun c => !c.isWhitespace) then
    match parse l with
    | some u => if truthyS u.stage then some u else none
    | none => none
  else none

/-- The stage updates emitted for a list of complete lines. -/
def lineUpdates (parse : List Char → Option JVal)
    (ls : List (List Char)) : List JVal :=
  ls.filterMap (goodStage parse)

/-- The stdout data handler run over a sequence of chunks (part_015 lines
113 to 134): append each chunk to the buffer, split on newline, keep the
trailing partial line in the buffer, process the complete lines.  Returns
the emitted stage updates and the final buffer. -/
def onDataRun (parse : List Char → Option JVal) :
    List Char → List (List Char) → List JVal × List Char
  | buf, [] => ([], buf)
  | buf, c :: cs =>
    ((lineUpdates parse (splitNl (buf ++ c)).1 ++
        (onDataRun parse (splitNl (buf ++ c)).2 cs).1),
      (onDataRun parse (splitNl (buf ++ c)).2 cs).2)

/-- All parts of the JS split of a whole output on newline (the close
handler splits the full stdout, so the trailing part is included). -/
def allParts (s : List Char) : List (List Char) :=
  (splitNl s).1 ++ [(splitNl s).2]

/-- The authoritativeness test of the close-handler loop (part_015 line
156): final_response truthy, or a council field present (an object is
always truthy). -/
def isFinalish (u : JVal) : Bool :=
  truthyS u.final_response || u.council.isSome

/-- Unwrapping of a possibly wrapped result (part_015 lines 157 to 158):
result.council when present, otherwise the result itself. -/
def unwrapCouncil (u : JVal) : JVal :=
  match u.council with
  | some c => c
  | none => u

/-- The rejections the runCouncil promise can settle with. -/
inductive CErr where
  | exitErr (stderr : List Char)
  | parseErr
  | timeoutErr
  | spawnErr

/-- The for loop of the close handler (part_015 lines 152 to 165), taking
the already reversed line list: resolve on the first line that parses as
JSON and passes the authoritativeness test. -/
def loopResolve (parse : List Char → Option JVal) :
    List (List Char) → Option JVal
  | [] => none
  | l :: ls =>
    match parse l with
    | some r =>
      if isFinalish r then some (unwrapCouncil r) else loopResolve parse ls
    | none => loopResolve parse ls

/-- Settlement logic of the close handler (part_015 lines 140 to 173):
reject with stderr when the exit code is nonzero and stdout is empty;
otherwise resolve from the last authoritative line (the loop walks the
nonempty lines in reverse), fall back to parsing the entire stdout, and
reject with a parse error only when both fail. -/
def closeResolve (parse : List Char → Option JVal) (code : Option Int)
    (stdout stderr : List Char) : Except CErr JVal :=
  if code ≠ some 0 ∧ stdout.isEmpty then Except.error (CErr.exitErr stderr)
  else
    match loopResolve parse
        (((allParts stdout).filter (fun l => !l.isEmpty)).reverse) with
    | some v => Except.ok v
    | none =>
      match parse stdout with
      | some r => Except.ok (unwrapCouncil r)
      | none => Except.error CErr.parseErr

/-- Specification-side form of the close-handler loop, written from the
words of the spec: the result is taken from the LAST line, in stream
order, that parses as JSON and carries a truthy final_response or a
council wrapper. -/
def lastFinalish (parse : List Char → Option JVal)
    (ls : List (List Char)) : Option JVal :=
  ls.foldl (fun acc l =>
    match parse l with
    | some r => if isFinalish r then some (unwrapCouncil r) else acc
    | none => acc) none

/-! ## Reassembly lemmas for the stream splitter -/

theorem splitNl_cons_nl (cs : List Char) :
    splitNl ('\n' :: cs) = ([] :: (splitNl cs).1, (splitNl cs).2) := by
  simp [splitNl]

theorem splitNl_cons_other (c : Char) (cs : List Char) (hc : ¬ c = '\n') :
    splitNl (c :: cs) = consHead c (splitNl cs) := by
  simp [splitNl, hc]

theorem splitNl_append (x y : List Char) :
    splitNl (x ++ y) =
      ((splitNl x).1 ++ (splitNl ((splitNl x).2 ++ y)).1,
        (splitNl ((splitNl x).2 ++ y)).2) := by
  induction x with
  | nil => simp [splitNl]
  | cons c cs ih =>
    rcases hq : splitNl (cs ++ y) with ⟨q1, q2⟩
    rcases hsp : splitNl cs with ⟨p1, p2⟩
    rcases hr : splitNl (p2 ++ y) with ⟨r1, r2⟩
    rw [hq, hsp, hr] at ih
    obtain ⟨ihq1, ihq2⟩ := Prod.mk.injEq .. ▸ ih
    by_cases hc : c = '\n'
    · subst hc
      rw [List.cons_append, splitNl_cons_nl, splitNl_cons_nl, hq, hsp,
        ihq1, ihq2]
      simp [hr]
    · rw [List.cons_append, splitNl_cons_other c (cs ++ y) hc,
        splitNl_cons_other c cs hc, hq, hsp, ihq1, ihq2]
      cases p1 with
      | nil =>
        have hx : splitNl (c :: (p2 ++ y)) = consHead c (r1, r2) := by
          rw [splitNl_cons_other c (p2 ++ y) hc, hr]
        simp only [consHead, List.nil_append, List.cons_append, hx]
      | cons l ls =>
        simp [consHead, hr]

theorem splitNl_snd_no_nl (x : List Char) : '\n' ∉ (splitNl x).2 := by
  induction x with
  | nil => simp [splitNl]
  | cons c cs ih =>
    by_cases hc : c = '\n'
    · subst hc
      rw [splitNl_cons_nl]
      exact ih
    · rw [splitNl_cons_other c cs hc]
      rcases hsp : splitNl cs with ⟨p1, p2⟩
      rw [hsp] at ih
      cases p1 with
      | nil =>
        intro hmem
        rcases List.mem_cons.mp hmem with h | h
        · exact hc h.symm
        · exact ih h
      | cons l ls => exact ih

theorem splitNl_no_nl (x : List Char) (h : '\n' ∉ x) :
    splitNl x = ([], x) := by
  induction x with
  | nil => rfl
  | cons c cs ih =>
    have hc : ¬ c = '\n' := fun he => (he ▸ h) (List.mem_cons_self _ _)
    have h2 : '\n' ∉ cs := fun hm => h (List.mem_cons_of_mem _ hm)
    rw [splitNl_cons_other c cs hc, ih h2]
    rfl

theorem lineUpdates_append (parse : List Char → Option JVal)
    (l1 l2 : List (List Char)) :
    lineUpdates parse (l1 ++ l2) =
      lineUpdates parse l1 ++ lineUpdates parse l2 := by
  simp [lineUpdates, List.filterMap_append]

/-- The data handler over any chunking equals line processing of the full
concatenated output: the buffer mechanism reassembles split lines. -/
theorem onDataRun_eq (parse : List Char → Option JVal) :
    ∀ (chunks : List (List Char)) (buf : List Char), '\n' ∉ buf →
      onDataRun parse buf chunks =
        (lineUpdates parse (splitNl (buf ++ chunks.flatten)).1,
          (splitNl (buf ++ chunks.flatten)).2) := by
  intro chunks
  induction chunks with
  | nil =>
    intro buf hbuf
    rw [onDataRun]
    simp [splitNl_no_nl buf hbuf, lineUpdates]
  | cons c cs ih =>
    intro buf hbuf
    rw [onDataRun, ih (splitNl (buf ++ c)).2 (splitNl_snd_no_nl _)]
    have hj : buf ++ (c :: cs).flatten = (buf ++ c) ++ cs.flatten := by
      simp [List.flatten]
    rw [hj, splitNl_append (buf ++ c) cs.flatten, lineUpdates_append]

/-! ## The close-handler loop picks the last authoritative line -/

theorem loopResolve_append (parse : List Char → Option JVal)
    (l1 l2 : List (List Char)) :
    loopResolve parse (l1 ++ l2) =
      ((loopResolve parse l1).or (loopResolve parse l2)) := by
  induction l1 with
  | nil => simp [loopResolve, Option.or]
  | cons l ls ih =>
    simp only [List.cons_append, loopResolve]
    cases hp : parse l with
    | none => simp [hp, ih]
    | some r =>
      by_cases hf : isFinalish r <;> simp [hp, hf, ih, Option.or]

theorem loopResolve_reverse (parse : List Char → Option JVal)
    (ls : List (List Char)) :
    loopResolve parse ls.reverse = lastFinalish parse ls := by
  induction ls using List.reverseRecOn with
  | nil => rfl
  | append_singleton ls a ih =>
    rw [List.reverse_append, lastFinalish, List.foldl_append]
    simp only [List.reverse_cons, List.reverse_nil, List.nil_append,
      List.foldl_cons, List.foldl_nil, List.singleton_append]
    cases hp : parse a with
    | none =>
      simp only [loopResolve, hp]
      exact ih
    | some r =>
      by_cases hf : isFinalish r
      · simp [loopResolve, hp, hf]
      · simp only [loopResolve, hp, hf, if_neg hf]
        exact ih

theorem goodStage_none_of_parse_none (parse : List Char → Option JVal)
    (l : List Char) (h : parse l = none) : goodStage parse l = none := by
  unfold goodStage
  rw [h]
  split <;> rfl

/-! ## Claim C8 -/

/-- Claim C8: (1) the streaming stdout handler is chunking-independent —
over any sequence of chunks it emits exactly the stage updates of the
complete lines of the concatenated output, so a line split across two
chunks is reassembled before parsing and no update is lost or parsed from
a fragment; (2) a complete line that fails to parse contributes nothing
and does not stop the processing of the surrounding lines; (3) when the
early stderr rejection does not apply, the close handler resolves with the
value of the last line of the full output that parses as JSON and carries
a truthy final_response or a council wrapper (unwrapping the latter),
falling back to a parse of the entire output; (4) it rejects with a parse
error exactly when the early rejection does not apply, no line is
authoritative, and the whole-output fallback parse also fails. -/
theorem council_stream_parsing (parse : List Char → Option JVal) :
    (∀ chunks : List (List Char),
      (onDataRun parse [] chunks).1 =
        lineUpdates parse (splitNl chunks.flatten).1) ∧
    (∀ pre post : List (List Char), ∀ bad : List Char, parse bad = none →
      lineUpdates parse (pre ++ bad :: post) =
        lineUpdates parse pre ++ lineUpdates parse post) ∧
    (∀ (code : Option Int) (stdout stderr : List Char),
      ¬ (code ≠ some 0 ∧ stdout.isEmpty = true) →
      closeResolve parse code stdout stderr =
        match lastFinalish parse
            ((allParts stdout).filter (fun l => !l.isEmpty)) with
        | some v => Except.ok v
        | none =>
          match parse stdout with
          | some r => Except.ok (unwrapCouncil r)
          | none => Except.error CErr.parseErr) ∧
    (∀ (code : Option Int) (stdout stderr : List Char),
      closeResolve parse code stdout stderr = Except.error CErr.parseErr ↔
        (¬ (code ≠ some 0 ∧ stdout.isEmpty = true) ∧
          lastFinalish parse
            ((allParts stdout).filter (fun l => !l.isEmpty)) = none ∧
          parse stdout = none)) := by
  have hclose : ∀ (code : Option Int) (stdout stderr : List Char),
      ¬ (code ≠ some 0 ∧ stdout.isEmpty = true) →
      closeResolve parse code stdout stderr =
        match lastFinalish parse
            ((allParts stdout).filter (fun l => !l.isEmpty)) with
        | some v => Except.ok v
        | none =>
          match parse stdout with
          | some r => Except.ok (unwrapCouncil r)
          | none => Except.error CErr.parseErr := by
    intro code stdout stderr hng
    unfold closeResolve
    rw [if_neg (by simpa using hng), loopResolve_reverse]
  refine ⟨?_, ?_, hclose, ?_⟩
  · intro chunks
    rw [onDataRun_eq parse chunks [] (by simp)]
    simp
  · intro pre post bad hbad
    simp [lineUpdates, List.filterMap_append, List.filterMap_cons,
      goodStage_none_of_parse_none parse bad hbad]
  · intro code stdout stderr
    by_cases hg : (code ≠ some 0 ∧ stdout.isEmpty = true)
    · constructor
      · intro h
        unfold closeResolve at h
        rw [if_pos (by simpa using hg)] at h
        cases h
      · intro h
        exact absurd hg h.1
    · rw [hclose code stdout stderr hg]
      constructor
      · intro h
        cases hl : lastFinalish parse
            ((allParts stdout).filter (fun l => !l.isEmpty)) with
        | some v => rw [hl] at h; cases h
        | none =>
          rw [hl] at h
          cases hp : parse stdout with
          | some r => rw [hp] at h; cases h
          | none => exact ⟨hg, rfl, rfl⟩
      · rintro ⟨-, hl, hp⟩
        rw [hl, hp]

/-- A stage-update JSON value. -/
def jStage : JVal := JVal.mk (some ['s', '1']) none none

/-- A final-result JSON value. -/
def jFinal : JVal := JVal.mk none (some ['o', 'k']) none

/-- A concrete parse function: the line "a" is a stage update, the line
"f" a final result, everything else fails to parse. -/
def demoParse (l : List Char) : Option JVal :=
  if l = ['a'] then some jStage
  else if l = ['f'] then some jFinal
  else none

/-- Witness for the C8 theorem at concrete inputs: the line "a" arrives
split across two chunks and is parsed once reassembled; an unparseable
line between two good lines is dropped without affecting them; a final
line resolves the close handler. -/
theorem council_stream_parsing_witness :
    ((onDataRun demoParse [] [['a'], ['\n']]).1 =
      lineUpdates demoParse (splitNl ([['a'], ['\n']] :
        List (List Char)).flatten).1) ∧
    (lineUpdates demoParse ([['a']] ++ ['x'] :: [['a']]) =
      lineUpdates demoParse [['a']] ++ lineUpdates demoParse [['a']]) ∧
    (closeResolve demoParse (some 0) ['f'] [] =
      match lastFinalish demoParse
          ((allParts ['f']).filter (fun l => !l.isEmpty)) with
      | some v => Except.ok v
      | none =>
        match demoParse ['f'] with
        | some r => Except.ok (unwrapCouncil r)
        | none => Except.error CErr.parseErr) := by
  have h := council_stream_parsing demoParse
  exact ⟨h.1 [['a'], ['\n']], h.2.1 [['a']] [['a']] ['x'] rfl,
    h.2.2.1 (some 0) ['f'] [] (by simp)⟩

/-! ## Claim C9 -/

/-- Settlement state of the runCouncil promise and its timer: whether the
promise has settled, whether the backend process has been killed, whether
the timer is still armed (clearTimeout disarms it, and a one-shot timer
disarms itself by firing), and the recorded settlement. -/
structure CState where
  resolved : Bool
  killed : Bool
  timerActive : Bool
  outcome : Option (Except CErr JVal)

/-- The timeout used by runCouncil (part_015 lines 61 to 66): the caller's
option, or the five-minute default of 300000 milliseconds. -/
def councilTimeout (o : Option Nat) : Nat := o.getD 300000

/-- Embedding of the timer callback (part_015 lines 105 to 111): an armed
timer that fires while the run is unresolved marks it resolved, kills the
backend process and rejects with the timeout error; if the run is already
resolved the guarded body does nothing, and a disarmed timer cannot fire
at all. -/
def stepTimer (s : CState) : CState :=
  if s.timerActive then
    if s.resolved then { s with timerActive := false }
    else
      { resolved := true, killed := true, timerActive := false,
        outcome := some (Except.error CErr.timeoutErr) }
  else s

/-- Embedding of the close-event handler (part_015 lines 140 to 173):
clearTimeout always runs first; an already resolved run changes nothing
else; otherwise the run resolves (or rejects) with the closeResolve
settlement, and no kill is issued. -/
def stepClose (parse : List Char → Option JVal) (code : Option Int)
    (stdout stderr : List Char) (s : CState) : CState :=
  if s.resolved then { s with timerActive := false }
  else
    { resolved := true, killed := s.killed, timerActive := false,
      outcome := some (closeResolve parse code stdout stderr) }

/-- The state runCouncil is in once its handlers are installed (part_015
lines 98 to 111): unresolved, nothing killed, timer armed. -/
def initCState : CState :=
  { resolved := false, killed := false, timerActive := true,
    outcome := none }

/-- Claim C9: the default timeout is 300000 milliseconds (5 minutes); an
armed timer firing on a still unresolved run kills the backend process and
rejects the whole run with the timeout error; and a run that resolves
first (the close event arrives before the deadline) disarms the timer, so
the timer never kills the process of a resolved run — its firing leaves
the state unchanged. -/
theorem council_timeout (parse : List Char → Option JVal)
    (code : Option Int) (stdout stderr : List Char) :
    councilTimeout none = 300000 ∧
    (∀ s : CState, s.resolved = false → s.timerActive = true →
      stepTimer s =
        { resolved := true, killed := true, timerActive := false,
          outcome := some (Except.error CErr.timeoutErr) }) ∧
    (stepClose parse code stdout stderr initCState).killed = false ∧
    (stepClose parse code stdout stderr initCState).timerActive = false ∧
    stepTimer (stepClose parse code stdout stderr initCState) =
      stepClose parse code stdout stderr initCState := by
  refine ⟨rfl, ?_, rfl, rfl, rfl⟩
  intro s h1 h2
  simp [stepTimer, h1, h2]

/-- Witness for the C9 theorem at concrete inputs: from the initial state
the timer fires on the unresolved run and settles it with the timeout
rejection, and a resolved run is left alone. -/
theorem council_timeout_witness :
    stepTimer initCState =
      { resolved := true, killed := true, timerActive := false,
        outcome := some (Except.error CErr.timeoutErr) } ∧
    (stepClose demoParse (some 0) ['f'] [] initCState).killed = false ∧
    stepTimer (stepClose demoParse (some 0) ['f'] [] initCState) =
      stepClose demoParse (some 0) ['f'] [] initCState := by
  have h := council_timeout demoParse (some 0) ['f'] []
  exact ⟨h.2.1 initCState rfl rfl, h.2.2.1, h.2.2.2.2⟩

end AgentK
